import Mathlib

/-!
# The actor invocation lock of `pkg/actors/actor_lock.go`

A shallow embedding of `ActorLock` (holder pointer, atomic `int32` depth counter,
ceiling, and the capacity-1 channel used as admission gate) together with its two
operations `Lock` and `Unlock`.

* Pointers to strings are `Option String` (`none` is the nil pointer).
* The `atomic.Int32` counter is an `Int` kept in range by `wrapInt32`.
* A channel of `struct{}` values is its capacity and its number of buffered elements.
* A call either returns, parks on a channel operation, or panics on a nil dereference;
  `Outcome` records which, together with the lock state at that point.
-/

namespace Actors

/-! ## Machine integers -/

/-- Smallest `int32`. -/
def minInt32 : Int := -2147483648

/-- Largest `int32`. -/
def maxInt32 : Int := 2147483647

/-- Range predicate of `int32`. -/
def isInt32 (x : Int) : Prop := minInt32 ≤ x ∧ x ≤ maxInt32

instance (x : Int) : Decidable (isInt32 x) := by
  unfold isInt32; exact inferInstance

/-- Two's-complement wrap-around of an integer into the `int32` range. -/
def wrapInt32 (x : Int) : Int := (x + 2147483648) % 4294967296 - 2147483648

/-- The value stored by `atomic.Int32.Add(delta)`. -/
def atomicAdd (v delta : Int) : Int := wrapInt32 (v + delta)

/-! ## Errors and channels -/

/-- A Go `error` value built by `errors.New`. -/
structure GoError where
  msg : String
  deriving DecidableEq

/-- The sentinel `var ErrMaxStackDepthExceeded = errors.New(...)`. -/
def ErrMaxStackDepthExceeded : GoError := ⟨"maximum stack depth exceeded"⟩

/-- A buffered `chan struct{}`: capacity and number of buffered elements. -/
structure Chan where
  cap : Nat
  len : Nat
  deriving DecidableEq

/-- The channel made by `make(chan struct{}, n)`. -/
def Chan.make (n : Nat) : Chan := ⟨n, 0⟩

/-- Channel send `c <- struct{}{}`: `none` when the buffer is full and the sender parks. -/
def Chan.send (c : Chan) : Option Chan :=
  if c.len < c.cap then some { c with len := c.len + 1 } else none

/-- Channel receive `<-c`: `none` when the buffer is empty and the receiver parks. -/
def Chan.recv (c : Chan) : Option Chan :=
  if 0 < c.len then some { c with len := c.len - 1 } else none

/-! ## The lock -/

/-- The fields of `ActorLock` (the mutex `requestLock` only guards `activeRequest`). -/
structure ActorLock where
  activeRequest : Option String
  stackDepth : Int
  maxStackDepth : Int
  lockChan : Chan
  deriving DecidableEq

/-- How a call ends: it returns a value, parks on a channel operation, or panics. -/
inductive Outcome (ρ : Type) where
  | returned (r : ρ) (a : ActorLock)
  | blocked (a : ActorLock)
  | panicked (a : ActorLock)
  deriving DecidableEq

/-- Constructor `NewActorLock(maxStackDepth)`. -/
def NewActorLock (maxStackDepth : Int) : ActorLock :=
  { activeRequest := none
    stackDepth := 0
    maxStackDepth := maxStackDepth
    lockChan := Chan.make 1 }

namespace ActorLock

/-- Accessor `getCurrentID`. -/
def getCurrentID (a : ActorLock) : Option String := a.activeRequest

/-- Mutator `setCurrentID`. -/
def setCurrentID (a : ActorLock) (id : Option String) : ActorLock :=
  { a with activeRequest := id }

/-- Mutator `clearCurrentID`. -/
def clearCurrentID (a : ActorLock) : ActorLock :=
  { a with activeRequest := none }

/-- The new-chain branch of `Lock`, from the channel send onwards: send on `lockChan`
(parking while the buffer is full), then `setCurrentID(requestID)` and
`stackDepth.Add(1)`. A parked call continues with exactly these statements once the
send goes through. -/
def lockAcquire (a : ActorLock) (requestID : Option String) : Outcome (Option GoError) :=
  match a.lockChan.send with
  | none => .blocked a
  | some c =>
    let a1 := { a with lockChan := c }
    let a2 := a1.setCurrentID requestID
    .returned none { a2 with stackDepth := atomicAdd a2.stackDepth 1 }

/-- Method `Lock(requestID *string) error`. The condition
`currentRequest == nil || *currentRequest != *requestID` short-circuits, so a nil
`requestID` is dereferenced only when there is a current holder. -/
def Lock (a : ActorLock) (requestID : Option String) : Outcome (Option GoError) :=
  let currentRequest := a.getCurrentID
  if a.stackDepth = a.maxStackDepth then
    .returned (some ErrMaxStackDepthExceeded) a
  else
    match currentRequest, requestID with
    | none, _ => a.lockAcquire requestID
    | some _, none => .panicked a
    | some cur, some req =>
      if cur ≠ req then a.lockAcquire requestID
      else .returned none { a with stackDepth := atomicAdd a.stackDepth 1 }

/-- Method `Unlock()`. -/
def Unlock (a : ActorLock) : Outcome Unit :=
  let a1 := { a with stackDepth := atomicAdd a.stackDepth (-1) }
  if a1.stackDepth = 0 then
    let a2 := a1.clearCurrentID
    match a2.lockChan.recv with
    | none => .blocked a2
    | some c => .returned () { a2 with lockChan := c }
  else
    .returned () a1

end ActorLock

/-! ## Sequential call sequences -/

/-- One call on the lock. -/
inductive Call where
  | Lock (requestID : Option String)
  | Unlock
  deriving DecidableEq

/-- Runs the calls one after the other on a single thread. The result lists what every
`Lock` returned and gives the final state; it is `none` as soon as one call does not
return (it parks or panics), since the calls after it are then never issued. -/
def runCalls (a : ActorLock) : List Call → Option (List (Option GoError) × ActorLock)
  | [] => some ([], a)
  | .Lock requestID :: cs =>
    match a.Lock requestID with
    | .returned r a1 => (runCalls a1 cs).map fun p => (r :: p.1, p.2)
    | _ => none
  | .Unlock :: cs =>
    match a.Unlock with
    | .returned _ a1 => runCalls a1 cs
    | _ => none

/-- Number of `Lock` calls minus number of `Unlock` calls of a call sequence. -/
def runningCount : List Call → Int
  | [] => 0
  | .Lock _ :: cs => 1 + runningCount cs
  | .Unlock :: cs => -1 + runningCount cs

/-! ## Executions with callers waiting at the gate

`Sys` adds to the lock the bookkeeping needed to speak about executions in which some
callers wait at the gate: the number of successful `Lock` calls not yet matched by an
`Unlock`, and the `Lock` calls that have reached the channel send and have not returned
yet, oldest first. Such a call is either still parked on the send, or the runtime has
completed its send (a receive on a full buffer with a parked sender moves that sender's
element into the buffer, so the slot passes from the receiver to the oldest parked
sender and the buffer never shows empty) and the caller has yet to run
`setCurrentID(requestID)` and `stackDepth.Add(1)`. Every event is one whole call, or the
remainder of a call whose send has been completed, taken atomically. -/

/-- A `Lock` call waiting at the channel send: its identifier and whether its send has
already been completed by the runtime. -/
structure Waiter where
  requestID : Option String
  granted : Bool
  deriving DecidableEq

/-- Lock state together with the outstanding holds and the `Lock` calls waiting at the
gate. -/
structure Sys where
  lock : ActorLock
  held : Nat
  parked : List Waiter
  deriving DecidableEq

/-- What can happen next: a caller invokes `Lock`, a caller whose earlier `Lock`
succeeded invokes `Unlock`, or the oldest caller whose send has been completed runs the
rest of its `Lock` and returns. -/
inductive Event where
  | lock (requestID : Option String)
  | unlock
  | wake
  deriving DecidableEq

/-- The system just after `NewActorLock(maxStackDepth)`. -/
def Sys.init (maxStackDepth : Int) : Sys :=
  { lock := NewActorLock maxStackDepth, held := 0, parked := [] }

/-- The statements of `Lock` after the channel send of the new-chain branch:
`setCurrentID(requestID)` and `stackDepth.Add(1)`. -/
def ActorLock.lockResume (a : ActorLock) (requestID : Option String) : ActorLock :=
  let a2 := a.setCurrentID requestID
  { a2 with stackDepth := atomicAdd a2.stackDepth 1 }

/-- Marks the oldest caller still parked on the send as having its send completed;
`none` if nobody is parked. -/
def grantFirst : List Waiter → Option (List Waiter)
  | [] => none
  | w :: ws =>
    if w.granted then (grantFirst ws).map fun q => w :: q
    else some ({ w with granted := true } :: ws)

/-- The runtime side of a receive: if the buffer has room and a sender is parked, the
send of the oldest parked sender is completed. -/
def Sys.handOver (s : Sys) : Sys :=
  match s.lock.lockChan.send, grantFirst s.parked with
  | some c, some q => { s with lock := { s.lock with lockChan := c }, parked := q }
  | _, _ => s

/-- One event. `none` means the event cannot happen or does not lead to a next state:
an `Unlock` without an outstanding hold, a call that panics or an `Unlock` that parks,
a wake-up when the oldest waiting caller is still parked or nobody waits. -/
def Sys.step (s : Sys) : Event → Option Sys
  | .lock requestID =>
    match s.lock.Lock requestID with
    | .returned none a => some { s with lock := a, held := s.held + 1 }
    | .returned (some _) a => some { s with lock := a }
    | .blocked a => some { s with lock := a, parked := s.parked ++ [⟨requestID, false⟩] }
    | .panicked _ => none
  | .unlock =>
    if s.held = 0 then none
    else
      match s.lock.Unlock with
      | .returned _ a => some ({ s with lock := a, held := s.held - 1 } : Sys).handOver
      | _ => none
  | .wake =>
    match s.parked with
    | [] => none
    | w :: rest =>
      if w.granted then
        some { lock := s.lock.lockResume w.requestID, held := s.held + 1, parked := rest }
      else none

/-- Runs a list of events; `none` if one of them cannot happen. -/
def Sys.run (s : Sys) : List Event → Option Sys
  | [] => some s
  | e :: es =>
    match s.step e with
    | none => none
    | some s1 => s1.run es

/-- What holds of the system between events when every `Unlock` matches an earlier
successful `Lock`: the depth counts the outstanding holds, it stays below the ceiling
`m`, the gate is empty exactly when there is no hold and nobody waits, a lock without
holds has no holder, callers can only wait when the ceiling is at least 1, and the only
caller whose send can have been completed is the oldest one, exactly when there is no
hold. -/
structure Sys.Inv (m : Int) (s : Sys) : Prop where
  max_eq : s.lock.maxStackDepth = m
  cap_eq : s.lock.lockChan.cap = 1
  depth_eq : s.lock.stackDepth = s.held
  depth_le : (s.held : Int) ≤ m
  gate : s.lock.lockChan.len = if s.held = 0 ∧ s.parked = [] then 0 else 1
  free : s.held = 0 → s.lock.activeRequest = none
  parked_pos : s.parked ≠ [] → 1 ≤ m
  behind : ∀ w ∈ s.parked.tail, w.granted = false
  oldest : ∀ w, s.parked.head? = some w → (w.granted = true ↔ s.held = 0)

/-- When no caller passes a nil identifier: nobody waiting carries one, and a lock with
outstanding holds has a holder. -/
structure Sys.InvId (s : Sys) : Prop where
  parked_some : ∀ w ∈ s.parked, w.requestID ≠ none
  holder : s.held ≠ 0 → s.lock.activeRequest ≠ none

/-- The state of a lock with ceiling `m` on which the single chain `id` has `d`
outstanding holds: the fresh lock when `d` is 0, otherwise held by `id` at depth `d`
with the gate occupied. -/
def chainState (m : Int) (id : String) (d : Nat) : ActorLock :=
  if d = 0 then NewActorLock m
  else { activeRequest := some id, stackDepth := d, maxStackDepth := m, lockChan := ⟨1, 1⟩ }

end Actors

/-! # The state-store errors of `pkg/api/errors/state.go`

`StateStoreError` carries the store name and the flag `skipResourceInfo`; its methods
have a pointer receiver, so each of them is a function that returns the error together
with the receiver as the call leaves it. The builder of `github.com/dapr/kit/errors` is
the record of what it was given: status codes, message, tag and the details attached so
far. The constants of the packages `errorcodes` and `metadata` are not part of the
sources at hand and are taken as parameters. -/

namespace ApiErrors

/-- The gRPC status codes named in `state.go`. -/
inductive Code where
  | InvalidArgument
  | FailedPrecondition
  | Unimplemented
  | Internal
  deriving DecidableEq

/-- A detail attached to an error under construction; a Go map is its list of
key/value pairs and the nil map is the empty list. -/
inductive Detail where
  | resourceInfo (resourceType resourceName owner description : String)
  | errorInfo (reason : String) (metadata : List (String × String))
  | fieldViolation (field msg : String)
  | helpLink (url description : String)
  deriving DecidableEq

/-- Whether the detail is a resource info. -/
def Detail.isResourceInfo : Detail → Bool
  | .resourceInfo _ _ _ _ => true
  | _ => false

/-- The `ErrorBuilder` of the errors kit, and the error it builds. -/
structure ErrorBuilder where
  grpcCode : Code
  httpCode : Nat
  message : String
  tag : String
  details : List Detail
  deriving DecidableEq

/-- Constructor `errors.NewBuilder(grpcCode, httpCode, message, tag)`. -/
def NewBuilder (grpcCode : Code) (httpCode : Nat) (message tag : String) : ErrorBuilder :=
  { grpcCode := grpcCode, httpCode := httpCode, message := message, tag := tag,
    details := [] }

namespace ErrorBuilder

/-- Builder step `WithResourceInfo`. -/
def WithResourceInfo (b : ErrorBuilder) (resourceType resourceName owner description : String) :
    ErrorBuilder :=
  { b with details := b.details ++ [.resourceInfo resourceType resourceName owner description] }

/-- Builder step `WithErrorInfo`. -/
def WithErrorInfo (b : ErrorBuilder) (reason : String) (metadata : List (String × String)) :
    ErrorBuilder :=
  { b with details := b.details ++ [.errorInfo reason metadata] }

/-- Builder step `WithFieldViolation`. -/
def WithFieldViolation (b : ErrorBuilder) (field msg : String) : ErrorBuilder :=
  { b with details := b.details ++ [.fieldViolation field msg] }

/-- Builder step `WithHelpLink`. -/
def WithHelpLink (b : ErrorBuilder) (url description : String) : ErrorBuilder :=
  { b with details := b.details ++ [.helpLink url description] }

/-- Final step `Build`: the error is what the builder has accumulated. -/
def Build (b : ErrorBuilder) : ErrorBuilder := b

end ErrorBuilder

/-- The string constants that `state.go` takes from the packages `errorcodes` and
`metadata`, as parameters. -/
structure Constants where
  StateStoreType : String
  StateStoreNotFound : String
  NotFound : String
  StateStoreNotConfigured : String
  NotConfigured : String
  MalformedRequest : String
  IllegalKey : String
  StateStoreNotSupported : String
  StateStoreTooManyTransactions : String
  NotSupported : String
  StateQuery : String
  PostfixQueryFailed : String
  PrefixStateStore : String

/-- The struct `StateStoreError`. -/
structure StateStoreError where
  name : String
  skipResourceInfo : Bool
  deriving DecidableEq

/-- Constructor `StateStore(name)`; the flag has its zero value. -/
def StateStore (name : String) : StateStoreError :=
  { name := name, skipResourceInfo := false }

namespace StateStoreError

/-- Method `build`. -/
def build (k : Constants) (s : StateStoreError) (err : ErrorBuilder) (errCode : String)
    (metadata : List (String × String)) : ErrorBuilder :=
  let err := if !s.skipResourceInfo then err.WithResourceInfo "state" s.name "" "" else err
  (err.WithErrorInfo (k.PrefixStateStore ++ errCode) metadata).Build

/-- Method `NotFound`. -/
def NotFound (k : Constants) (s : StateStoreError) (appID : String) :
    ErrorBuilder × StateStoreError :=
  let msg := k.StateStoreType ++ " store " ++ s.name ++ " is not found"
  let s := { s with skipResourceInfo := true }
  let md := if 0 < appID.utf8ByteSize then [("appID", appID)] else []
  (s.build k (NewBuilder .InvalidArgument 400 msg k.StateStoreNotFound) k.NotFound md, s)

/-- Method `NotConfigured`. -/
def NotConfigured (k : Constants) (s : StateStoreError) (appID : String) :
    ErrorBuilder × StateStoreError :=
  let msg := k.StateStoreType ++ " store " ++ s.name ++ " is not configured"
  let s := { s with skipResourceInfo := true }
  let md := if 0 < appID.utf8ByteSize then [("appID", appID)] else []
  (s.build k (NewBuilder .FailedPrecondition 500 msg k.StateStoreNotConfigured)
    k.NotConfigured md, s)

/-- Method `InvalidKeyName`. -/
def InvalidKeyName (k : Constants) (s : StateStoreError) (key msg : String) :
    ErrorBuilder × StateStoreError :=
  (s.build k
    ((NewBuilder .InvalidArgument 400 msg k.MalformedRequest).WithFieldViolation key msg)
    k.IllegalKey [], s)

/-- Method `TransactionsNotSupported`. -/
def TransactionsNotSupported (k : Constants) (s : StateStoreError) :
    ErrorBuilder × StateStoreError :=
  (s.build k
    ((NewBuilder .Unimplemented 500
        ("state store " ++ s.name ++ " doesn\x27t support transactions")
        k.StateStoreNotSupported).WithHelpLink
      "https://docs.dapr.io/reference/components-reference/supported-state-stores/"
      "Check the list of state stores and the features they support")
    "TRANSACTIONS_NOT_SUPPORTED" [], s)

/-- Method `TooManyTransactionalOps`; `%d` and `strconv.Itoa` print the decimal form. -/
def TooManyTransactionalOps (k : Constants) (s : StateStoreError) (count max : Int) :
    ErrorBuilder × StateStoreError :=
  (s.build k
    (NewBuilder .InvalidArgument 400
      ("the transaction contains " ++ toString count ++
        " operations, which is more than what the state store supports: " ++ toString max)
      k.StateStoreTooManyTransactions)
    "TOO_MANY_TRANSACTIONS"
    [("currentOpsTransaction", toString count), ("maxOpsPerTransaction", toString max)], s)

/-- Method `QueryUnsupported`. -/
def QueryUnsupported (k : Constants) (s : StateStoreError) : ErrorBuilder × StateStoreError :=
  (s.build k
    (NewBuilder .Internal 500 "state store does not support querying"
      k.StateStoreNotSupported)
    ("QUERYING_" ++ k.NotSupported) [], s)

/-- Method `QueryFailed`. -/
def QueryFailed (k : Constants) (s : StateStoreError) (detail : String) :
    ErrorBuilder × StateStoreError :=
  (s.build k
    (NewBuilder .Internal 500 ("state store " ++ s.name ++ " query failed: " ++ detail)
      k.StateQuery)
    k.PostfixQueryFailed [], s)

end StateStoreError

/-- A call of one of the exported methods of `StateStoreError`, with its arguments. -/
inductive Method where
  | NotFound (appID : String)
  | NotConfigured (appID : String)
  | InvalidKeyName (key msg : String)
  | TransactionsNotSupported
  | TooManyTransactionalOps (count max : Int)
  | QueryUnsupported
  | QueryFailed (detail : String)
  deriving DecidableEq

/-- Whether the call is one of `NotFound`, `NotConfigured`. -/
def Method.isNotFoundOrNotConfigured : Method → Bool
  | .NotFound _ => true
  | .NotConfigured _ => true
  | _ => false

/-- Performs the call on the receiver. -/
def StateStoreError.call (k : Constants) (s : StateStoreError) :
    Method → ErrorBuilder × StateStoreError
  | .NotFound appID => s.NotFound k appID
  | .NotConfigured appID => s.NotConfigured k appID
  | .InvalidKeyName key msg => s.InvalidKeyName k key msg
  | .TransactionsNotSupported => s.TransactionsNotSupported k
  | .TooManyTransactionalOps count max => s.TooManyTransactionalOps k count max
  | .QueryUnsupported => s.QueryUnsupported k
  | .QueryFailed detail => s.QueryFailed k detail

/-- The receiver after a sequence of calls on it. -/
def StateStoreError.afterCalls (k : Constants) (s : StateStoreError) :
    List Method → StateStoreError
  | [] => s
  | m :: ms => StateStoreError.afterCalls k (s.call k m).2 ms

end ApiErrors

namespace Actors

/-! ## Basic facts about single calls -/

theorem wrapInt32_of_isInt32 {x : Int} (h : isInt32 x) : wrapInt32 x = x := by
  unfold isInt32 minInt32 maxInt32 at h
  unfold wrapInt32
  omega

theorem lockAcquire_ne_err (a a1 : ActorLock) (requestID : Option String) (e : GoError) :
    a.lockAcquire requestID ≠ .returned (some e) a1 := by
  unfold ActorLock.lockAcquire
  cases a.lockChan.send <;> simp


theorem atomicAdd_one {d m : Int} (hm : isInt32 m) (h0 : 0 ≤ d) (hlt : d < m) :
    atomicAdd d 1 = d + 1 := by
  unfold atomicAdd
  apply wrapInt32_of_isInt32
  unfold isInt32 minInt32 maxInt32 at *
  omega

theorem atomicAdd_neg_one {d m : Int} (hm : isInt32 m) (h0 : 0 < d) (hle : d ≤ m) :
    atomicAdd d (-1) = d - 1 := by
  unfold atomicAdd
  have : d + -1 = d - 1 := by ring
  rw [this]
  apply wrapInt32_of_isInt32
  unfold isInt32 minInt32 maxInt32 at *
  omega

theorem lockAcquire_eq (a : ActorLock) (requestID : Option String) :
    a.lockAcquire requestID =
      if a.lockChan.len < a.lockChan.cap then
        .returned none
          { activeRequest := requestID, stackDepth := atomicAdd a.stackDepth 1,
            maxStackDepth := a.maxStackDepth,
            lockChan := ⟨a.lockChan.cap, a.lockChan.len + 1⟩ }
      else .blocked a := by
  unfold ActorLock.lockAcquire Chan.send ActorLock.setCurrentID
  split_ifs <;> rfl

/-- With an empty gate, the `Unlock` that brings the depth to 0 clears the holder and
then parks on the receive. -/
theorem unlock_parks_on_empty_gate (a : ActorLock) (h : atomicAdd a.stackDepth (-1) = 0)
    (hg : a.lockChan.len = 0) :
    a.Unlock = .blocked { a with stackDepth := 0, activeRequest := none } := by
  unfold ActorLock.Unlock
  simp [h, ActorLock.clearCurrentID, Chan.recv, hg]

/-! ## The invariant of matched executions -/

theorem Sys.Inv.at_init {m : Int} (h0 : 0 ≤ m) : (Sys.init m).Inv m where
  max_eq := rfl
  cap_eq := rfl
  depth_eq := rfl
  depth_le := by simpa [Sys.init] using h0
  gate := rfl
  free := fun _ => rfl
  parked_pos := fun h => absurd rfl h
  behind := by simp [Sys.init]
  oldest := by simp [Sys.init]

theorem Sys.Inv.gate_full {m : Int} {s : Sys} (hi : s.Inv m)
    (h : s.held ≠ 0 ∨ s.parked ≠ []) : s.lock.lockChan.len = 1 := by
  have hg := hi.gate
  have : ¬ (s.held = 0 ∧ s.parked = []) := by
    rintro ⟨h1, h2⟩
    rcases h with h | h
    · exact h h1
    · exact h h2
  simpa [this] using hg

theorem Sys.Inv.lockAcquire_free {m : Int} {s : Sys} (hi : s.Inv m) (hm : isInt32 m)
    (hh : s.held = 0) (hp : s.parked = []) (h1 : 1 ≤ m) (requestID : Option String) :
    s.lock.lockAcquire requestID = .returned none
      { activeRequest := requestID, stackDepth := 1, maxStackDepth := m,
        lockChan := ⟨1, 1⟩ } := by
  have hg := hi.gate
  have hd := hi.depth_eq
  rw [hh] at hd
  simp only [hh, hp, and_self, if_true] at hg
  have hd0 : s.lock.stackDepth = 0 := by simpa using hd
  rw [lockAcquire_eq, hi.cap_eq, hg, hd0, hi.max_eq]
  have : atomicAdd 0 1 = 1 := atomicAdd_one hm (le_refl 0) (by omega)
  simp [this]

theorem Sys.Inv.lockAcquire_waiting {m : Int} {s : Sys} (hi : s.Inv m)
    (h : s.held ≠ 0 ∨ s.parked ≠ []) (requestID : Option String) :
    s.lock.lockAcquire requestID = .blocked s.lock := by
  rw [lockAcquire_eq, hi.cap_eq, hi.gate_full h]
  simp

theorem Sys.Inv.lockAcquire_held {m : Int} {s : Sys} (hi : s.Inv m)
    (hh : s.held ≠ 0) (requestID : Option String) :
    s.lock.lockAcquire requestID = .blocked s.lock :=
  hi.lockAcquire_waiting (Or.inl hh) requestID

theorem Sys.Inv.park {m : Int} {s : Sys} (hi : s.Inv m)
    (h : s.held ≠ 0 ∨ s.parked ≠ []) (requestID : Option String) :
    ({ s with lock := s.lock, parked := s.parked ++ [⟨requestID, false⟩] } : Sys).Inv m where
  max_eq := hi.max_eq
  cap_eq := hi.cap_eq
  depth_eq := hi.depth_eq
  depth_le := hi.depth_le
  gate := by
    have := hi.gate_full h
    simp [this]
  free := hi.free
  parked_pos := fun _ => by
    rcases h with h | h
    · have := hi.depth_le
      omega
    · exact hi.parked_pos h
  behind := by
    intro w hw
    cases hp : s.parked with
    | nil => simp [hp] at hw
    | cons p ps =>
      simp only [hp, List.cons_append, List.tail_cons, List.mem_append,
        List.mem_singleton] at hw
      rcases hw with hw | hw
      · exact hi.behind w (by simp [hp, hw])
      · simp [hw]
  oldest := by
    intro w hw
    cases hp : s.parked with
    | nil =>
      simp only [hp, List.nil_append, List.head?_cons, Option.some.injEq] at hw
      subst hw
      have hh : s.held ≠ 0 := by
        rcases h with h | h
        · exact h
        · exact absurd hp h
      simp [hh]
    | cons p ps =>
      simp only [hp, List.cons_append, List.head?_cons, Option.some.injEq] at hw
      subst hw
      exact hi.oldest _ (by simp [hp])

theorem Sys.handOver_of_full (s : Sys) (h : s.lock.lockChan.send = none) :
    s.handOver = s := by
  simp [Sys.handOver, h]

theorem Sys.Inv.after_step {m : Int} {s s1 : Sys} {e : Event} (hi : s.Inv m) (hm : isInt32 m)
    (h : s.step e = some s1) : s1.Inv m := by
  have hmax := hi.max_eq
  have hdep := hi.depth_eq
  have hle := hi.depth_le
  cases e with
  | lock requestID =>
    simp only [Sys.step] at h
    by_cases hc : s.lock.stackDepth = s.lock.maxStackDepth
    · have hL : s.lock.Lock requestID =
          .returned (some ErrMaxStackDepthExceeded) s.lock := by
        simp [ActorLock.Lock, hc]
      rw [hL] at h
      simp only [Option.some.injEq] at h
      subst h
      exact hi
    · have hlt : (s.held : Int) < m := by
        rw [hdep, hmax] at hc
        omega
      by_cases hfree : s.held = 0 ∧ s.parked = []
      · obtain ⟨hh, hp⟩ := hfree
        have hL : s.lock.Lock requestID = .returned none
            { activeRequest := requestID, stackDepth := 1, maxStackDepth := m,
              lockChan := ⟨1, 1⟩ } := by
          unfold ActorLock.Lock ActorLock.getCurrentID
          rw [if_neg hc, hi.free hh]
          exact hi.lockAcquire_free hm hh hp (by omega) requestID
        rw [hL] at h
        simp only [Option.some.injEq] at h
        subst h
        exact
          { max_eq := rfl, cap_eq := rfl, depth_eq := by simp [hh]
            depth_le := by push_cast; omega
            gate := by simp
            free := by simp
            parked_pos := hi.parked_pos
            behind := by simp [hp]
            oldest := by simp [hp] }
      · have hw : s.held ≠ 0 ∨ s.parked ≠ [] := by
          by_cases hh : s.held = 0
          · exact Or.inr fun hp => hfree ⟨hh, hp⟩
          · exact Or.inl hh
        have hblk : s.lock.lockAcquire requestID = .blocked s.lock :=
          hi.lockAcquire_waiting hw requestID
        have hpark := hi.park hw requestID
        unfold ActorLock.Lock ActorLock.getCurrentID at h
        rw [if_neg hc] at h
        cases hcur : s.lock.activeRequest with
        | none =>
          rw [hcur] at h
          simp only [hblk, Option.some.injEq] at h
          subst h
          exact hpark
        | some cur =>
          rw [hcur] at h
          have hh : s.held ≠ 0 := fun h0 => by
            have := hi.free h0
            rw [hcur] at this
            exact absurd this (by simp)
          cases requestID with
          | none => simp at h
          | some req =>
            by_cases hr : cur = req
            · have hadd : atomicAdd s.lock.stackDepth 1 = s.lock.stackDepth + 1 :=
                atomicAdd_one hm (by rw [hdep]; omega) (by rw [hdep]; exact hlt)
              simp only [hr, ne_eq, not_true_eq_false, if_false, hadd,
                Option.some.injEq] at h
              subst h
              exact
                { max_eq := hi.max_eq, cap_eq := hi.cap_eq
                  depth_eq := by simp [hdep]
                  depth_le := by push_cast; omega
                  gate := by
                    have := hi.gate_full (Or.inl hh)
                    simp [this]
                  free := by simp
                  parked_pos := hi.parked_pos
                  behind := hi.behind
                  oldest := fun w hw => by
                    have := hi.oldest w hw
                    simp only [hh, iff_false] at this
                    simp [this] }
            · simp only [ne_eq, hr, not_false_eq_true, if_true, hblk,
                Option.some.injEq] at h
              subst h
              exact hpark
  | unlock =>
    simp only [Sys.step] at h
    by_cases hh : s.held = 0
    · simp [hh] at h
    · rw [if_neg hh] at h
      have hpos : 0 < s.held := Nat.pos_of_ne_zero hh
      have hsub : atomicAdd s.lock.stackDepth (-1) = s.lock.stackDepth - 1 :=
        atomicAdd_neg_one hm (by rw [hdep]; omega) (by rw [hdep]; exact hle)
      have hg := hi.gate_full (Or.inl hh)
      have hcap := hi.cap_eq
      by_cases h1 : s.held = 1
      · have hU : s.lock.Unlock = .returned ()
            { activeRequest := none, stackDepth := 0, maxStackDepth := m,
              lockChan := ⟨1, 0⟩ } := by
          have hz : atomicAdd s.lock.stackDepth (-1) = 0 := by
            rw [hsub, hdep, h1]
            simp
          unfold ActorLock.Unlock
          simp [hz, ActorLock.clearCurrentID, Chan.recv, hg, hmax, hi.cap_eq]
        rw [hU] at h
        simp only [Option.some.injEq] at h
        subst h
        cases hp : s.parked with
        | nil =>
          have hO : Sys.handOver ⟨⟨none, 0, m, ⟨1, 0⟩⟩, s.held - 1, []⟩ =
              ⟨⟨none, 0, m, ⟨1, 0⟩⟩, s.held - 1, []⟩ := by
            simp [Sys.handOver, grantFirst, Chan.send]
          rw [hO]
          exact
            { max_eq := rfl, cap_eq := rfl, depth_eq := by simp [h1]
              depth_le := by simp [h1]; omega
              gate := by simp [h1]
              free := fun _ => rfl
              parked_pos := fun h => absurd rfl h
              behind := by simp [hp]
              oldest := by simp [hp] }
        | cons w ws =>
          have hwg : w.granted = false := by
            have := hi.oldest w (by simp [hp])
            simp only [hh, iff_false] at this
            simpa using this
          have hO : Sys.handOver ⟨⟨none, 0, m, ⟨1, 0⟩⟩, s.held - 1, w :: ws⟩ =
              ⟨⟨none, 0, m, ⟨1, 1⟩⟩, s.held - 1, { w with granted := true } :: ws⟩ := by
            simp [Sys.handOver, grantFirst, Chan.send, hwg]
          rw [hO]
          exact
            { max_eq := rfl, cap_eq := rfl, depth_eq := by simp [h1]
              depth_le := by simp [h1]; omega
              gate := by simp
              free := fun _ => rfl
              parked_pos := fun _ => hi.parked_pos (by simp [hp])
              behind := fun v hv => hi.behind v (by simpa [hp] using hv)
              oldest := by simp [h1] }
      · have hU : s.lock.Unlock = .returned ()
            { s.lock with stackDepth := s.lock.stackDepth - 1 } := by
          unfold ActorLock.Unlock
          have : s.lock.stackDepth - 1 ≠ 0 := by rw [hdep]; omega
          simp [hsub, this]
        rw [hU] at h
        simp only [Option.some.injEq] at h
        subst h
        rw [Sys.handOver_of_full _ (by simp [Chan.send, hg, hcap])]
        have hne : s.held - 1 ≠ 0 := by omega
        exact
          { max_eq := hi.max_eq, cap_eq := hi.cap_eq
            depth_eq := by simp [hdep]; omega
            depth_le := by simp; omega
            gate := by simp [hne, hg]
            free := fun h0 => absurd h0 hne
            parked_pos := hi.parked_pos
            behind := hi.behind
            oldest := fun w hw => by
              have := hi.oldest w hw
              simp only [hh, iff_false] at this
              simp [this, hne] }
  | wake =>
    simp only [Sys.step] at h
    cases hp : s.parked with
    | nil => simp [hp] at h
    | cons w rest =>
      rw [hp] at h
      dsimp only at h
      by_cases hwg : w.granted = true
      · rw [if_pos hwg] at h
        simp only [Option.some.injEq] at h
        subst h
        have h1 : 1 ≤ m := hi.parked_pos (by simp [hp])
        have hh : s.held = 0 := (hi.oldest w (by simp [hp])).1 hwg
        have hd0 : s.lock.stackDepth = 0 := by rw [hdep, hh]; simp
        have hadd : atomicAdd (0 : Int) 1 = 1 := atomicAdd_one hm (le_refl 0) (by omega)
        have hg := hi.gate_full (Or.inr (by simp [hp]))
        have hrest : ∀ v ∈ rest, v.granted = false := fun v hv =>
          hi.behind v (by simpa [hp] using hv)
        exact
          { max_eq := hi.max_eq, cap_eq := hi.cap_eq
            depth_eq := by simp [ActorLock.lockResume, ActorLock.setCurrentID, hd0, hadd, hh]
            depth_le := by simp [hh]; omega
            gate := by simp [ActorLock.lockResume, ActorLock.setCurrentID, hg]
            free := by simp
            parked_pos := fun _ => h1
            behind := fun v hv => hrest v (List.mem_of_mem_tail hv)
            oldest := fun v hv => by
              have hv1 : v ∈ rest := by
                cases rest with
                | nil => simp at hv
                | cons r rs =>
                  simp only [List.head?_cons, Option.some.injEq] at hv
                  simp [hv]
              simp [hrest v hv1] }
      · rw [if_neg hwg] at h
        simp at h

theorem Sys.Inv.after_run {m : Int} (hm : isInt32 m) (es : List Event) :
    ∀ {s s1 : Sys}, s.Inv m → s.run es = some s1 → s1.Inv m := by
  induction es with
  | nil =>
    intro s s1 hi h
    simp only [Sys.run, Option.some.injEq] at h
    subst h
    exact hi
  | cons e es ih =>
    intro s s1 hi h
    simp only [Sys.run] at h
    cases hs : s.step e with
    | none => simp [hs] at h
    | some s2 =>
      rw [hs] at h
      exact ih (hi.after_step hm hs) h

/-- Every state of a matched execution started by `NewActorLock(m)` satisfies the
invariant. -/
theorem Sys.inv_of_run {m : Int} (hm : isInt32 m) (h0 : 0 ≤ m) {es : List Event} {s : Sys}
    (h : (Sys.init m).run es = some s) : s.Inv m :=
  Sys.Inv.after_run hm es (Sys.Inv.at_init h0) h

theorem grantFirst_requestIDs (q : List Waiter) :
    ∀ q1, grantFirst q = some q1 →
      q1.map Waiter.requestID = q.map Waiter.requestID := by
  induction q with
  | nil => intro q1 h; simp [grantFirst] at h
  | cons w ws ih =>
    intro q1 h
    simp only [grantFirst] at h
    by_cases hw : w.granted = true
    · rw [if_pos hw] at h
      cases hg : grantFirst ws with
      | none => simp [hg] at h
      | some q2 =>
        simp only [hg, Option.map_some', Option.some.injEq] at h
        subst h
        simp [ih q2 hg]
    · rw [if_neg hw] at h
      simp only [Option.some.injEq] at h
      subst h
      simp

theorem Sys.handOver_facts (s : Sys) :
    s.handOver.held = s.held ∧
      s.handOver.lock.activeRequest = s.lock.activeRequest ∧
      s.handOver.lock.stackDepth = s.lock.stackDepth ∧
      s.handOver.parked.map Waiter.requestID = s.parked.map Waiter.requestID := by
  unfold Sys.handOver
  cases hc : s.lock.lockChan.send with
  | none => simp
  | some c =>
    cases hg : grantFirst s.parked with
    | none => simp
    | some q => simp [grantFirst_requestIDs s.parked q hg]

theorem Sys.InvId.id_at_init (m : Int) : (Sys.init m).InvId where
  parked_some := by simp [Sys.init]
  holder := fun h => absurd rfl h

theorem Sys.InvId.id_after_step {m : Int} {s s1 : Sys} {e : Event} (hi : s.Inv m) (hm : isInt32 m)
    (hid : s.InvId) (he : e ≠ .lock none) (h : s.step e = some s1) : s1.InvId := by
  have hi1 : s1.Inv m := hi.after_step hm h
  have hpark : ∀ req : String,
      ({ s with lock := s.lock, parked := s.parked ++ [⟨some req, false⟩] } : Sys).InvId :=
    fun req =>
    { parked_some := by
        intro r hr
        rcases List.mem_append.1 hr with h1 | h1
        · exact hid.parked_some r h1
        · simp only [List.mem_singleton] at h1
          simp [h1]
      holder := hid.holder }
  cases e with
  | lock requestID =>
    cases requestID with
    | none => exact absurd rfl he
    | some req =>
      simp only [Sys.step] at h
      unfold ActorLock.Lock ActorLock.getCurrentID at h
      by_cases hc : s.lock.stackDepth = s.lock.maxStackDepth
      · rw [if_pos hc] at h
        simp only [Option.some.injEq] at h
        subst h
        exact hid
      · rw [if_neg hc] at h
        have hacq : ∀ s2 : Sys,
            (match s.lock.lockAcquire (some req) with
              | .returned none a => some { s with lock := a, held := s.held + 1 }
              | .returned (some _) a => some { s with lock := a }
              | .blocked a =>
                some { s with lock := a, parked := s.parked ++ [⟨some req, false⟩] }
              | .panicked _ => none) = some s2 → s2.InvId := by
          intro s2 h2
          rw [lockAcquire_eq] at h2
          by_cases hl : s.lock.lockChan.len < s.lock.lockChan.cap
          · rw [if_pos hl] at h2
            simp only [Option.some.injEq] at h2
            subst h2
            exact { parked_some := hid.parked_some, holder := by simp }
          · rw [if_neg hl] at h2
            simp only [Option.some.injEq] at h2
            subst h2
            exact hpark req
        cases hcur : s.lock.activeRequest with
        | none =>
          rw [hcur] at h
          exact hacq s1 h
        | some cur =>
          rw [hcur] at h
          by_cases hr : cur = req
          · simp only [hr, ne_eq, not_true_eq_false, if_false, Option.some.injEq] at h
            subst h
            exact { parked_some := hid.parked_some, holder := by simp [hcur] }
          · simp only [ne_eq, hr, not_false_eq_true, if_true] at h
            exact hacq s1 h
  | unlock =>
    simp only [Sys.step] at h
    by_cases hh : s.held = 0
    · simp [hh] at h
    · rw [if_neg hh] at h
      cases hU : s.lock.Unlock with
      | blocked a => simp [hU] at h
      | panicked a => simp [hU] at h
      | returned r a =>
        rw [hU] at h
        simp only [Option.some.injEq] at h
        obtain ⟨hheld, hact, hdepth, hids⟩ :=
          Sys.handOver_facts ({ s with lock := a, held := s.held - 1 } : Sys)
        rw [h] at hheld hact hdepth hids
        simp only at hheld hact hdepth hids
        refine { parked_some := ?_, holder := ?_ }
        · intro w hw
          have hmem : w.requestID ∈ s1.parked.map Waiter.requestID :=
            List.mem_map_of_mem _ hw
          rw [hids] at hmem
          obtain ⟨v, hv, hvw⟩ := List.mem_map.1 hmem
          rw [← hvw]
          exact hid.parked_some v hv
        · intro h0
          rw [hact]
          unfold ActorLock.Unlock at hU
          by_cases hz : atomicAdd s.lock.stackDepth (-1) = 0
          · exfalso
            have hd1 := hi1.depth_eq
            rw [hdepth] at hd1
            simp only [hz, if_true, ActorLock.clearCurrentID, Chan.recv] at hU
            split_ifs at hU
            simp only [Outcome.returned.injEq, true_and] at hU
            subst hU
            simp only at hd1
            exact h0 (by exact_mod_cast hd1.symm)
          · simp only [hz, if_false, Outcome.returned.injEq, true_and] at hU
            subst hU
            exact hid.holder hh
  | wake =>
    simp only [Sys.step] at h
    cases hp : s.parked with
    | nil => simp [hp] at h
    | cons w rest =>
      rw [hp] at h
      dsimp only at h
      have hsome : w.requestID ≠ none := hid.parked_some w (by simp [hp])
      split_ifs at h
      simp only [Option.some.injEq] at h
      subst h
      exact
        { parked_some := fun r hr => hid.parked_some r (by simp [hp, hr])
          holder := fun _ => by
            simpa [ActorLock.lockResume, ActorLock.setCurrentID] using hsome }

theorem Sys.InvId.id_after_run {m : Int} (hm : isInt32 m) (es : List Event) :
    ∀ {s s1 : Sys}, s.Inv m → s.InvId → Event.lock none ∉ es → s.run es = some s1 →
      s1.InvId := by
  induction es with
  | nil =>
    intro s s1 _ hid _ h
    simp only [Sys.run, Option.some.injEq] at h
    subst h
    exact hid
  | cons e es ih =>
    intro s s1 hi hid hn h
    simp only [Sys.run] at h
    have he : e ≠ .lock none := fun hc => hn (by simp [hc])
    have hes : Event.lock none ∉ es := fun hc => hn (List.mem_cons_of_mem _ hc)
    cases hs : s.step e with
    | none => simp [hs] at h
    | some s2 =>
      rw [hs] at h
      exact ih (hi.after_step hm hs) (hid.id_after_step hi hm he hs) hes h

/-- In a matched execution an `Unlock` by a caller with an outstanding hold always
returns: it never parks on the gate. -/
theorem Sys.Inv.unlock_returns {m : Int} {s : Sys} (hi : s.Inv m)
    (hh : s.held ≠ 0) : ∃ a, s.lock.Unlock = .returned () a := by
  have hg := hi.gate_full (Or.inl hh)
  unfold ActorLock.Unlock
  by_cases hz : atomicAdd s.lock.stackDepth (-1) = 0
  · simp [hz, ActorLock.clearCurrentID, Chan.recv, hg]
  · simp [hz]

theorem Sys.run_append (s : Sys) (es1 es2 : List Event) :
    s.run (es1 ++ es2) = (s.run es1).bind fun s1 => s1.run es2 := by
  induction es1 generalizing s with
  | nil => rfl
  | cons e es ih =>
    simp only [List.cons_append, Sys.run]
    cases s.step e with
    | none => rfl
    | some s1 => exact ih s1

/-- Callers whose `Lock` parks queue up behind those already waiting, in the order of
their calls, and leave the lock as it is. -/
theorem Sys.run_parking (ids : List (Option String)) :
    ∀ s : Sys, (∀ id ∈ ids, s.lock.Lock id = .blocked s.lock) →
      s.run (ids.map Event.lock) =
        some { s with parked := s.parked ++ ids.map fun id => ⟨id, false⟩ } := by
  induction ids with
  | nil => intro s _; simp [Sys.run]
  | cons id ids ih =>
    intro s h
    have h1 : s.step (.lock id) =
        some { s with parked := s.parked ++ [⟨id, false⟩] } := by
      simp [Sys.step, h id (List.mem_cons_self _ _)]
    simp only [List.map_cons, Sys.run, h1]
    have h2 := ih ⟨s.lock, s.held, s.parked ++ [⟨id, false⟩]⟩
      (fun id1 hid1 => h id1 (List.mem_cons_of_mem _ hid1))
    rw [h2]
    simp

/-! ## Single-chain call sequences -/

theorem lock_chainState {m : Int} (hm : isInt32 m) (id : String) {d : Nat}
    (hlt : (d : Int) < m) :
    (chainState m id d).Lock (some id) = .returned none (chainState m id (d + 1)) := by
  have hadd : atomicAdd (d : Int) 1 = (d : Int) + 1 :=
    atomicAdd_one hm (by omega) hlt
  by_cases hd : d = 0
  · subst hd
    have hne : (0 : Int) ≠ m := by
      simp only [Nat.cast_zero] at hlt
      omega
    simp [chainState, NewActorLock, ActorLock.Lock, ActorLock.getCurrentID, hne,
      ActorLock.lockAcquire, ActorLock.setCurrentID, Chan.make, Chan.send, atomicAdd,
      wrapInt32]
  · have hne : (d : Int) ≠ m := ne_of_lt hlt
    simp [chainState, hd, ActorLock.Lock, ActorLock.getCurrentID, hne, hadd]

theorem unlock_chainState {m : Int} (hm : isInt32 m) (id : String) {d : Nat}
    (hpos : 0 < d) (hle : (d : Int) ≤ m) :
    (chainState m id d).Unlock = .returned () (chainState m id (d - 1)) := by
  have hd : d ≠ 0 := by omega
  have hsub : atomicAdd (d : Int) (-1) = (d : Int) - 1 :=
    atomicAdd_neg_one hm (by omega) hle
  by_cases h1 : d = 1
  · subst h1
    have hz : atomicAdd (1 : Int) (-1) = 0 := by decide
    simp [chainState, ActorLock.Unlock, hz, ActorLock.clearCurrentID, Chan.recv,
      NewActorLock, Chan.make]
  · have hne : (d : Int) - 1 ≠ 0 := by omega
    have hd1 : d - 1 ≠ 0 := by omega
    have hcast : ((d - 1 : Nat) : Int) = (d : Int) - 1 := by omega
    simp [chainState, hd, hd1, ActorLock.Unlock, hsub, hne, hcast]

theorem runCalls_chain {m : Int} (hm : isInt32 m) (id : String) (cs : List Call) :
    ∀ d : Nat, (∀ c ∈ cs, c = .Lock (some id) ∨ c = .Unlock) →
      (∀ k, 0 ≤ (d : Int) + runningCount (cs.take k) ∧
        (d : Int) + runningCount (cs.take k) ≤ m) →
      runCalls (chainState m id d) cs =
        some (List.replicate (cs.count (.Lock (some id))) none,
          chainState m id ((d : Int) + runningCount cs).toNat) := by
  induction cs with
  | nil =>
    intro d _ _
    simp [runCalls, runningCount]
  | cons c cs ih =>
    intro d hcalls hrange
    have hcs : ∀ c1 ∈ cs, c1 = .Lock (some id) ∨ c1 = .Unlock :=
      fun c1 h1 => hcalls c1 (List.mem_cons_of_mem _ h1)
    have h1 := hrange 1
    rcases hcalls c (List.mem_cons_self _ _) with hc | hc
    · subst hc
      simp only [List.take_succ_cons, List.take_zero, runningCount] at h1
      have hstep := lock_chainState hm id (d := d) (by omega)
      have hr : ∀ k, 0 ≤ ((d + 1 : Nat) : Int) + runningCount (cs.take k) ∧
          ((d + 1 : Nat) : Int) + runningCount (cs.take k) ≤ m := by
        intro k
        have := hrange (k + 1)
        simp only [List.take_succ_cons, runningCount] at this
        push_cast
        omega
      have hrec := ih (d + 1) hcs hr
      have heq : ((d + 1 : Nat) : Int) + runningCount cs =
          (d : Int) + runningCount (Call.Lock (some id) :: cs) := by
        simp only [runningCount]
        push_cast
        omega
      rw [heq] at hrec
      simp [runCalls, hstep, hrec, List.replicate_succ]
    · subst hc
      simp only [List.take_succ_cons, List.take_zero, runningCount] at h1
      have h0 := hrange 0
      simp only [List.take_zero, runningCount] at h0
      have hstep := unlock_chainState hm id (d := d) (by omega) (by omega)
      have hr : ∀ k, 0 ≤ ((d - 1 : Nat) : Int) + runningCount (cs.take k) ∧
          ((d - 1 : Nat) : Int) + runningCount (cs.take k) ≤ m := by
        intro k
        have := hrange (k + 1)
        simp only [List.take_succ_cons, runningCount] at this
        omega
      have hrec := ih (d - 1) hcs hr
      have heq : ((d - 1 : Nat) : Int) + runningCount cs =
          (d : Int) + runningCount (Call.Unlock :: cs) := by
        simp only [runningCount]
        omega
      rw [heq] at hrec
      simp [runCalls, hstep, hrec]

theorem runCalls_append (a : ActorLock) (cs1 cs2 : List Call) :
    runCalls a (cs1 ++ cs2) =
      (runCalls a cs1).bind fun p =>
        (runCalls p.2 cs2).map fun q => (p.1 ++ q.1, q.2) := by
  induction cs1 generalizing a with
  | nil =>
    simp only [List.nil_append, runCalls, Option.some_bind, List.nil_append]
    cases runCalls a cs2 <;> rfl
  | cons c cs ih =>
    cases c with
    | Lock requestID =>
      simp only [List.cons_append, runCalls, List.append_eq]
      cases a.Lock requestID with
      | returned r a1 =>
        simp only [ih a1]
        cases runCalls a1 cs with
        | none => rfl
        | some p =>
          simp only [Option.some_bind, Option.map_some']
          cases runCalls p.2 cs2 <;> rfl
      | blocked a1 => rfl
      | panicked a1 => rfl
    | Unlock =>
      simp only [List.cons_append, runCalls, List.append_eq]
      cases a.Unlock with
      | returned r a1 => exact ih a1
      | blocked a1 => rfl
      | panicked a1 => rfl

theorem runCalls_nested {m : Int} (hm : isInt32 m) (id : String) (j : Nat) :
    ∀ d : Nat, ((d + j : Nat) : Int) ≤ m →
      runCalls (chainState m id d) (List.replicate j (.Lock (some id))) =
        some (List.replicate j none, chainState m id (d + j)) := by
  induction j with
  | zero =>
    intro d _
    simp [runCalls]
  | succ j ih =>
    intro d hle
    have hstep := lock_chainState hm id (d := d) (by push_cast at hle; omega)
    have hrec := ih (d + 1) (by push_cast at hle ⊢; omega)
    have : d + 1 + j = d + (j + 1) := by omega
    rw [this] at hrec
    simp [List.replicate_succ, runCalls, hstep, hrec]

theorem runCalls_rejected (a : ActorLock) (requestID : Option String)
    (hc : a.stackDepth = a.maxStackDepth) (j : Nat) :
    runCalls a (List.replicate j (.Lock requestID)) =
      some (List.replicate j (some ErrMaxStackDepthExceeded), a) := by
  induction j with
  | zero => simp [runCalls]
  | succ j ih =>
    have hL : a.Lock requestID = .returned (some ErrMaxStackDepthExceeded) a := by
      simp [ActorLock.Lock, hc]
    simp [List.replicate_succ, runCalls, hL, ih]

/-! ## Theorems -/

/-- C1: `Lock` returns `ErrMaxStackDepthExceeded` exactly when the depth equals the
ceiling at the time of the call, whatever the holder and the identifier (nil included),
and a `Lock` that returns an error returns that error and leaves the holder, the depth
and the gate unchanged. -/
theorem lock_err_iff_at_ceiling (a : ActorLock) (requestID : Option String) :
    ((∃ a1, a.Lock requestID = .returned (some ErrMaxStackDepthExceeded) a1) ↔
        a.stackDepth = a.maxStackDepth) ∧
      (∀ e a1, a.Lock requestID = .returned (some e) a1 →
        e = ErrMaxStackDepthExceeded ∧ a1 = a) := by
  by_cases h : a.stackDepth = a.maxStackDepth
  · simp [ActorLock.Lock, h]
  · have key : ∀ e a1, a.Lock requestID ≠ .returned (some e) a1 := by
      intro e a1
      unfold ActorLock.Lock ActorLock.getCurrentID
      rw [if_neg h]
      cases hc : a.activeRequest with
      | none => exact lockAcquire_ne_err a a1 requestID e
      | some cur =>
        cases requestID with
        | none => simp
        | some req =>
          by_cases hr : cur = req
          · simp [hr]
          · simp only [ne_eq, hr, not_false_eq_true, if_true]
            exact lockAcquire_ne_err a a1 (some req) e
    refine ⟨⟨fun ⟨a1, h1⟩ => absurd h1 (key _ a1), fun h1 => absurd h1 h⟩, ?_⟩
    intro e a1 h1
    exact absurd h1 (key e a1)

/-- C3: new-chain admission. On a free lock (no holder, depth 0, gate empty) whose depth
is not at the ceiling, `Lock(id)` returns nil without parking, and afterwards the holder
is `id`, the depth is 1 and the gate slot is occupied. -/
theorem lock_free_admits (a : ActorLock) (requestID : Option String)
    (hfree : a.activeRequest = none) (hdepth : a.stackDepth = 0)
    (hgate : a.lockChan = Chan.make 1) (hceil : a.stackDepth ≠ a.maxStackDepth) :
    a.Lock requestID = .returned none
      { activeRequest := requestID, stackDepth := 1,
        maxStackDepth := a.maxStackDepth, lockChan := ⟨1, 1⟩ } := by
  unfold ActorLock.Lock ActorLock.getCurrentID
  rw [if_neg hceil, hfree]
  simp [ActorLock.lockAcquire, ActorLock.setCurrentID, hgate, hdepth, Chan.make, Chan.send,
    atomicAdd, wrapInt32]

theorem lock_free_admits_witness :
    (NewActorLock 2).activeRequest = none ∧ (NewActorLock 2).stackDepth = 0 ∧
      (NewActorLock 2).lockChan = Chan.make 1 ∧
      (NewActorLock 2).stackDepth ≠ (NewActorLock 2).maxStackDepth ∧
      (NewActorLock 2).Lock (some "r1") = .returned none
        { activeRequest := some "r1", stackDepth := 1,
          maxStackDepth := (NewActorLock 2).maxStackDepth, lockChan := ⟨1, 1⟩ } :=
  ⟨rfl, rfl, rfl, by decide,
    lock_free_admits (NewActorLock 2) (some "r1") rfl rfl rfl (by decide)⟩

/-- C4: reentrant entry. When the holder equals `requestID` and the depth (an `int32`)
is below the ceiling (an `int32`), `Lock(requestID)` returns nil without parking,
whatever the gate holds, raises the depth by exactly 1 and changes nothing else. -/
theorem lock_reentrant (a : ActorLock) (requestID : String)
    (hholder : a.activeRequest = some requestID)
    (hbelow : a.stackDepth < a.maxStackDepth)
    (hd : isInt32 a.stackDepth) (hm : isInt32 a.maxStackDepth) :
    a.Lock (some requestID) = .returned none { a with stackDepth := a.stackDepth + 1 } := by
  have hne : a.stackDepth ≠ a.maxStackDepth := ne_of_lt hbelow
  have hw : atomicAdd a.stackDepth 1 = a.stackDepth + 1 := by
    unfold atomicAdd
    apply wrapInt32_of_isInt32
    unfold isInt32 minInt32 maxInt32 at *
    omega
  unfold ActorLock.Lock ActorLock.getCurrentID
  rw [if_neg hne, hholder]
  simp [hw]

theorem lock_reentrant_witness :
    (⟨some "r1", 1, 2, ⟨1, 1⟩⟩ : ActorLock).activeRequest = some "r1" ∧
      (1 : Int) < 2 ∧ isInt32 1 ∧ isInt32 2 ∧
      (⟨some "r1", 1, 2, ⟨1, 1⟩⟩ : ActorLock).Lock (some "r1") =
        .returned none ⟨some "r1", 2, 2, ⟨1, 1⟩⟩ :=
  ⟨rfl, by decide, by decide, by decide,
    lock_reentrant ⟨some "r1", 1, 2, ⟨1, 1⟩⟩ "r1" rfl (by decide) (by decide) (by decide)⟩

/-- C5: `Unlock` lowers the depth by exactly 1 (for a depth in the `int32` range above
its minimum, where the subtraction cannot wrap). If the new depth is not 0 the holder
and the gate are unchanged; if it is 0 the holder is cleared and the occupied gate slot
is released. -/
theorem unlock_spec (a : ActorLock) (hd : isInt32 a.stackDepth)
    (hmin : a.stackDepth ≠ minInt32) :
    (a.stackDepth - 1 ≠ 0 →
        a.Unlock = .returned () { a with stackDepth := a.stackDepth - 1 }) ∧
      (a.stackDepth - 1 = 0 → 0 < a.lockChan.len →
        a.Unlock = .returned ()
          { activeRequest := none, stackDepth := a.stackDepth - 1,
            maxStackDepth := a.maxStackDepth,
            lockChan := ⟨a.lockChan.cap, a.lockChan.len - 1⟩ }) := by
  have hw : atomicAdd a.stackDepth (-1) = a.stackDepth - 1 := by
    unfold atomicAdd
    have : a.stackDepth + -1 = a.stackDepth - 1 := by ring
    rw [this]
    apply wrapInt32_of_isInt32
    unfold isInt32 minInt32 maxInt32 at *
    omega
  constructor
  · intro h
    unfold ActorLock.Unlock
    simp [hw, h]
  · intro h hg
    unfold ActorLock.Unlock
    simp [hw, h, ActorLock.clearCurrentID, Chan.recv, hg]

theorem unlock_spec_witness :
    isInt32 2 ∧ (2 : Int) ≠ minInt32 ∧ isInt32 1 ∧ (1 : Int) ≠ minInt32 ∧
      (⟨some "r1", 2, 2, ⟨1, 1⟩⟩ : ActorLock).Unlock =
        .returned () ⟨some "r1", 1, 2, ⟨1, 1⟩⟩ ∧
      (⟨some "r1", 1, 2, ⟨1, 1⟩⟩ : ActorLock).Unlock = .returned () (NewActorLock 2) :=
  ⟨by decide, by decide, by decide, by decide,
    (unlock_spec ⟨some "r1", 2, 2, ⟨1, 1⟩⟩ (by decide) (by decide)).1 (by decide),
    (unlock_spec ⟨some "r1", 1, 2, ⟨1, 1⟩⟩ (by decide) (by decide)).2 (by decide)
      (by decide)⟩

/-- C2 (as stated, refuted): with ceiling 1, after `Lock("A")` chain A holds the lock at
depth 1 with the gate occupied, and `Lock("B")` by another chain returns at once, with
`ErrMaxStackDepthExceeded`, instead of parking. -/
theorem lock_other_chain_returns_at_ceiling :
    (Sys.init 1).run [.lock (some "A")] = some ⟨⟨some "A", 1, 1, ⟨1, 1⟩⟩, 1, []⟩ ∧
      (⟨some "A", 1, 1, ⟨1, 1⟩⟩ : ActorLock).Lock (some "B") =
        .returned (some ErrMaxStackDepthExceeded) ⟨some "A", 1, 1, ⟨1, 1⟩⟩ := by
  decide

/-- C2 (amended): in every state of a matched execution in which chain A holds the lock
(holder A, depth above 0), a `Lock(B)` with B different from A never returns success: at
the ceiling it returns `ErrMaxStackDepthExceeded` with the state unchanged, below the
ceiling it parks at the gate without changing the state; and in every later state whose
depth is above 0 the parked call still cannot get through the gate. -/
theorem lock_other_chain_blocks (m : Int) (es : List Event) (s : Sys) (A B : String)
    (hm : isInt32 m) (h0 : 0 ≤ m) (hrun : (Sys.init m).run es = some s)
    (hA : s.lock.activeRequest = some A) (hpos : 0 < s.lock.stackDepth) (hne : B ≠ A) :
    (s.lock.stackDepth = s.lock.maxStackDepth →
        s.lock.Lock (some B) = .returned (some ErrMaxStackDepthExceeded) s.lock) ∧
      (s.lock.stackDepth ≠ s.lock.maxStackDepth →
        s.lock.Lock (some B) = .blocked s.lock) ∧
      (∀ es1 s1, s.run es1 = some s1 → 0 < s1.lock.stackDepth →
        s1.lock.lockAcquire (some B) = .blocked s1.lock) := by
  have hi : s.Inv m := Sys.inv_of_run hm h0 hrun
  have hheld : ∀ {t : Sys}, t.Inv m → 0 < t.lock.stackDepth → t.held ≠ 0 := by
    intro t ht hp hz
    have := ht.depth_eq
    rw [hz] at this
    simp only [Nat.cast_zero] at this
    omega
  refine ⟨fun hc => by simp [ActorLock.Lock, hc], fun hc => ?_, fun es1 s1 h1 hp => ?_⟩
  · unfold ActorLock.Lock ActorLock.getCurrentID
    rw [if_neg hc, hA]
    have hAB : A ≠ B := fun h => hne h.symm
    simp only [ne_eq, hAB, not_false_eq_true, if_true]
    exact hi.lockAcquire_held (hheld hi hpos) (some B)
  · have hi1 : s1.Inv m := Sys.Inv.after_run hm es1 hi h1
    exact hi1.lockAcquire_held (hheld hi1 hp) (some B)

theorem lock_other_chain_blocks_witness :
    (Sys.init 2).run [.lock (some "A")] = some ⟨⟨some "A", 1, 2, ⟨1, 1⟩⟩, 1, []⟩ ∧
      (⟨some "A", 1, 2, ⟨1, 1⟩⟩ : ActorLock).Lock (some "B") =
        .blocked ⟨some "A", 1, 2, ⟨1, 1⟩⟩ :=
  ⟨by decide,
    (lock_other_chain_blocks 2 [.lock (some "A")] ⟨⟨some "A", 1, 2, ⟨1, 1⟩⟩, 1, []⟩ "A" "B"
      (by decide) (by decide) (by decide) rfl (by decide) (by decide)).2.1 (by decide)⟩

/-- C6: depth bound. For a lock made by `NewActorLock(m)` with a non-negative `int32`
ceiling `m`, every state reached by `Lock` calls (returning, failing, or parked and
later admitted) and by `Unlock` calls that each match an earlier successful `Lock` has
`0 <= stackDepth <= maxStackDepth`, and the ceiling is still `m`. -/
theorem depth_within_bounds (m : Int) (es : List Event) (s : Sys)
    (hm : isInt32 m) (h0 : 0 ≤ m) (hrun : (Sys.init m).run es = some s) :
    0 ≤ s.lock.stackDepth ∧ s.lock.stackDepth ≤ s.lock.maxStackDepth ∧
      s.lock.maxStackDepth = m := by
  have hi : s.Inv m := Sys.inv_of_run hm h0 hrun
  have h1 := hi.depth_eq
  have h2 := hi.depth_le
  have h3 := hi.max_eq
  refine ⟨?_, ?_, h3⟩ <;> omega

theorem depth_within_bounds_witness :
    (Sys.init 2).run [.lock (some "r1"), .lock (some "r1"), .lock (some "r1"), .unlock] =
        some ⟨⟨some "r1", 1, 2, ⟨1, 1⟩⟩, 1, []⟩ ∧
      (0 : Int) ≤ 1 ∧ (1 : Int) ≤ 2 :=
  ⟨by decide,
    (depth_within_bounds 2 [.lock (some "r1"), .lock (some "r1"), .lock (some "r1"), .unlock]
      ⟨⟨some "r1", 1, 2, ⟨1, 1⟩⟩, 1, []⟩ (by decide) (by decide) (by decide)).1,
    (depth_within_bounds 2 [.lock (some "r1"), .lock (some "r1"), .lock (some "r1"), .unlock]
      ⟨⟨some "r1", 1, 2, ⟨1, 1⟩⟩, 1, []⟩ (by decide) (by decide) (by decide)).2.1⟩

/-- C7: holder/depth invariant. In every state reached from `NewActorLock(m)` (`m` a
non-negative `int32`) by `Lock` calls that all carry a present identifier and by `Unlock`
calls that each match an earlier successful `Lock`, the holder is absent if and only if
the depth is 0. -/
theorem holder_absent_iff_depth_zero (m : Int) (es : List Event) (s : Sys)
    (hm : isInt32 m) (h0 : 0 ≤ m) (hids : Event.lock none ∉ es)
    (hrun : (Sys.init m).run es = some s) :
    s.lock.activeRequest = none ↔ s.lock.stackDepth = 0 := by
  have hi : s.Inv m := Sys.inv_of_run hm h0 hrun
  have hid : s.InvId := Sys.InvId.id_after_run hm es (Sys.Inv.at_init h0) (Sys.InvId.id_at_init m) hids hrun
  have hd := hi.depth_eq
  constructor
  · intro hn
    by_contra hz
    have hh : s.held ≠ 0 := by
      intro h
      rw [h] at hd
      exact hz (by simpa using hd)
    exact hid.holder hh hn
  · intro hz
    apply hi.free
    rw [hz] at hd
    exact_mod_cast hd.symm

theorem holder_absent_iff_depth_zero_witness :
    (Sys.init 2).run [.lock (some "r1"), .lock (some "r2"), .unlock, .wake] =
        some ⟨⟨some "r2", 1, 2, ⟨1, 1⟩⟩, 1, []⟩ ∧
      ((some "r2" : Option String) = none ↔ (1 : Int) = 0) :=
  ⟨by decide,
    holder_absent_iff_depth_zero 2 [.lock (some "r1"), .lock (some "r2"), .unlock, .wake]
      ⟨⟨some "r2", 1, 2, ⟨1, 1⟩⟩, 1, []⟩ (by decide) (by decide) (by decide) (by decide)⟩

/-- C8 (as stated, refuted): with ceiling 3, after `Lock("r1")`, a `Lock("r2")` that
parks and the `Unlock` of `"r1"`, the depth is 0 and yet the gate slot is occupied: the
receive of `Unlock` has passed the slot to the parked call, which has not yet run its
`stackDepth.Add(1)`. -/
theorem gate_occupied_at_depth_zero :
    (Sys.init 3).run [.lock (some "r1"), .lock (some "r2"), .unlock] =
        some ⟨⟨none, 0, 3, ⟨1, 1⟩⟩, 0, [⟨some "r2", true⟩]⟩ ∧
      ¬ ((⟨none, 0, 3, ⟨1, 1⟩⟩ : ActorLock).lockChan.len = 1 ↔
        0 < (⟨none, 0, 3, ⟨1, 1⟩⟩ : ActorLock).stackDepth) := by
  decide

/-- C8 (amended): gate invariant. In every state reached from `NewActorLock(m)` (`m` a
non-negative `int32`) by `Lock` calls and by `Unlock` calls that each match an earlier
successful `Lock`, the gate has its single slot, and the slot is occupied if and only if
the depth is above 0 or the slot has been passed to a waiting `Lock` call that has not
yet returned. In particular, when no `Lock` call waits at the gate, the slot is occupied
if and only if the depth is above 0. -/
theorem gate_occupied_iff_held_or_handed (m : Int) (es : List Event) (s : Sys)
    (hm : isInt32 m) (h0 : 0 ≤ m) (hrun : (Sys.init m).run es = some s) :
    s.lock.lockChan.cap = 1 ∧ s.lock.lockChan.len ≤ 1 ∧
      (s.lock.lockChan.len = 1 ↔
        (0 < s.lock.stackDepth ∨ ∃ w ∈ s.parked, w.granted = true)) ∧
      (s.parked = [] → (s.lock.lockChan.len = 1 ↔ 0 < s.lock.stackDepth)) := by
  have hi : s.Inv m := Sys.inv_of_run hm h0 hrun
  have hd := hi.depth_eq
  have hg := hi.gate
  have hpos : 0 < s.lock.stackDepth ↔ s.held ≠ 0 := by
    rw [hd]
    omega
  have hgr : (∃ w ∈ s.parked, w.granted = true) ↔ (s.held = 0 ∧ s.parked ≠ []) := by
    constructor
    · rintro ⟨w, hw, hwg⟩
      cases hp : s.parked with
      | nil => simp [hp] at hw
      | cons v vs =>
        rw [hp] at hw
        rcases List.mem_cons.1 hw with hv | hv
        · subst hv
          exact ⟨(hi.oldest w (by simp [hp])).1 hwg, by simp⟩
        · have := hi.behind w (by simpa [hp] using hv)
          rw [this] at hwg
          exact absurd hwg (by simp)
    · rintro ⟨hh, hp⟩
      cases hq : s.parked with
      | nil => exact absurd hq hp
      | cons v vs =>
        exact ⟨v, by simp, (hi.oldest v (by simp [hq])).2 hh⟩
  have hlen : s.lock.lockChan.len = 1 ↔ ¬ (s.held = 0 ∧ s.parked = []) := by
    split_ifs at hg with hc
    · simp [hg, hc]
    · simp [hg, hc]
  refine ⟨hi.cap_eq, ?_, ?_, ?_⟩
  · split_ifs at hg <;> omega
  · rw [hlen, hpos, hgr]
    by_cases hh : s.held = 0 <;> simp [hh]
  · intro hp
    rw [hlen, hpos]
    simp [hp]

theorem gate_occupied_iff_held_or_handed_witness :
    (Sys.init 3).run [.lock (some "r1"), .lock (some "r2"), .unlock] =
        some ⟨⟨none, 0, 3, ⟨1, 1⟩⟩, 0, [⟨some "r2", true⟩]⟩ ∧
      ((1 : Nat) = 1 ↔
        ((0 : Int) < 0 ∨ ∃ w ∈ [(⟨some "r2", true⟩ : Waiter)], w.granted = true)) :=
  ⟨by decide,
    (gate_occupied_iff_held_or_handed 3 [.lock (some "r1"), .lock (some "r2"), .unlock]
      ⟨⟨none, 0, 3, ⟨1, 1⟩⟩, 0, [⟨some "r2", true⟩]⟩ (by decide) (by decide)
      (by decide)).2.2.1⟩

/-- C9: balanced single-chain round trip. For every identifier `id` and every sequence of
`Lock(id)` and `Unlock` calls on a fresh lock (ceiling `m`, an `int32`) in which the
number of `Lock` calls minus the number of `Unlock` calls stays between 0 and `m` along
the sequence and is 0 at its end, every call returns, every `Lock` returns nil, and the
final state is the fresh lock again: no holder, depth 0, gate empty. -/
theorem balanced_chain_round_trip (m : Int) (id : String) (cs : List Call)
    (hm : isInt32 m)
    (hcalls : ∀ c ∈ cs, c = .Lock (some id) ∨ c = .Unlock)
    (hrange : ∀ k, 0 ≤ runningCount (cs.take k) ∧ runningCount (cs.take k) ≤ m)
    (hend : runningCount cs = 0) :
    runCalls (NewActorLock m) cs =
      some (List.replicate (cs.count (.Lock (some id))) none, NewActorLock m) := by
  have h := runCalls_chain hm id cs 0 hcalls (by simpa using hrange)
  simpa [chainState, hend] using h

theorem balanced_chain_round_trip_witness :
    runCalls (NewActorLock 2)
        [.Lock (some "r1"), .Lock (some "r1"), .Unlock, .Lock (some "r1"), .Unlock, .Unlock] =
      some ([none, none, none], NewActorLock 2) :=
  balanced_chain_round_trip 2 "r1"
    [.Lock (some "r1"), .Lock (some "r1"), .Unlock, .Lock (some "r1"), .Unlock, .Unlock]
    (by decide) (by decide)
    (by
      intro k
      rcases k with _ | _ | _ | _ | _ | _ | _ | k <;> simp [runningCount])
    (by decide)

/-- C10: idempotent rejection at the ceiling. For every ceiling `n >= 1` (an `int32`) and
identifier `id`, `n` nested `Lock(id)` calls on a fresh lock all return nil, and each of
the `k + 1` further `Lock(id)` calls returns `ErrMaxStackDepthExceeded`; at the end the
lock is still held by `id` at depth `n` with the gate occupied. -/
theorem lock_rejected_at_ceiling (n : Nat) (id : String) (k : Nat)
    (hn : 1 ≤ n) (hm : isInt32 (n : Int)) :
    runCalls (NewActorLock n)
        (List.replicate n (.Lock (some id)) ++ List.replicate (k + 1) (.Lock (some id))) =
      some (List.replicate n none ++ List.replicate (k + 1) (some ErrMaxStackDepthExceeded),
        { activeRequest := some id, stackDepth := n, maxStackDepth := n,
          lockChan := ⟨1, 1⟩ }) := by
  have h1 := runCalls_nested hm id n 0 (by simp)
  have hn0 : n ≠ 0 := by omega
  have hs : chainState (n : Int) id (0 + n) =
      { activeRequest := some id, stackDepth := n, maxStackDepth := n,
        lockChan := ⟨1, 1⟩ } := by
    simp [chainState, hn0]
  have h0 : chainState (n : Int) id 0 = NewActorLock n := by simp [chainState]
  rw [hs, h0] at h1
  have h2 := runCalls_rejected
    { activeRequest := some id, stackDepth := n, maxStackDepth := n, lockChan := ⟨1, 1⟩ }
    (some id) rfl (k + 1)
  rw [runCalls_append, h1]
  simp only [Option.some_bind, h2, Option.map_some']

theorem lock_rejected_at_ceiling_witness :
    runCalls (NewActorLock 2)
        [.Lock (some "r1"), .Lock (some "r1"), .Lock (some "r1"), .Lock (some "r1")] =
      some ([none, none, some ErrMaxStackDepthExceeded, some ErrMaxStackDepthExceeded],
        ⟨some "r1", 2, 2, ⟨1, 1⟩⟩) :=
  lock_rejected_at_ceiling 2 "r1" 1 (by decide) (by decide)

/-- C11: the scenario with `NewActorLock(2)`. `Lock("r1")` returns nil at depth 1, a
second `Lock("r1")` returns nil at depth 2, a third returns `ErrMaxStackDepthExceeded`
with the depth still 2, two `Unlock` calls bring the depth to 0 and clear the holder
(and the gate), and `Lock("r2")` then returns nil without parking with `"r2"` the holder
at depth 1. -/
theorem scenario_ceiling_two :
    (NewActorLock 2).Lock (some "r1") = .returned none ⟨some "r1", 1, 2, ⟨1, 1⟩⟩ ∧
      (⟨some "r1", 1, 2, ⟨1, 1⟩⟩ : ActorLock).Lock (some "r1") =
        .returned none ⟨some "r1", 2, 2, ⟨1, 1⟩⟩ ∧
      (⟨some "r1", 2, 2, ⟨1, 1⟩⟩ : ActorLock).Lock (some "r1") =
        .returned (some ErrMaxStackDepthExceeded) ⟨some "r1", 2, 2, ⟨1, 1⟩⟩ ∧
      (⟨some "r1", 2, 2, ⟨1, 1⟩⟩ : ActorLock).Unlock =
        .returned () ⟨some "r1", 1, 2, ⟨1, 1⟩⟩ ∧
      (⟨some "r1", 1, 2, ⟨1, 1⟩⟩ : ActorLock).Unlock = .returned () ⟨none, 0, 2, ⟨1, 0⟩⟩ ∧
      (⟨none, 0, 2, ⟨1, 0⟩⟩ : ActorLock).Lock (some "r2") =
        .returned none ⟨some "r2", 1, 2, ⟨1, 1⟩⟩ ∧
      runCalls (NewActorLock 2)
          [.Lock (some "r1"), .Lock (some "r1"), .Lock (some "r1"), .Unlock, .Unlock,
            .Lock (some "r2")] =
        some ([none, none, some ErrMaxStackDepthExceeded, none],
          ⟨some "r2", 1, 2, ⟨1, 1⟩⟩) := by
  decide

/-- C13: no borrowed reentrancy. When chain A holds the lock with the gate full, a
`Lock(B)` with B different from A (the empty string included) never returns success and
leaves the state as it is: at the ceiling it returns `ErrMaxStackDepthExceeded`, below it
it parks at the gate. And whenever a `Lock` returns nil without having touched the gate,
its identifier is present and equal to the holder. -/
theorem lock_no_borrowed_reentrancy (a : ActorLock) (A B : String)
    (hA : a.activeRequest = some A) (hfull : a.lockChan.cap ≤ a.lockChan.len)
    (hne : B ≠ A) :
    (a.stackDepth = a.maxStackDepth →
        a.Lock (some B) = .returned (some ErrMaxStackDepthExceeded) a) ∧
      (a.stackDepth ≠ a.maxStackDepth → a.Lock (some B) = .blocked a) ∧
      (∀ (b b1 : ActorLock) (requestID : Option String),
        b.Lock requestID = .returned none b1 → b1.lockChan = b.lockChan →
          b.activeRequest = requestID ∧ requestID ≠ none) := by
  have hAB : A ≠ B := fun h => hne h.symm
  have hacq : ∀ (b b1 : ActorLock) (requestID : Option String),
      b.lockAcquire requestID = .returned none b1 → b1.lockChan ≠ b.lockChan := by
    intro b b1 requestID h
    rw [lockAcquire_eq] at h
    split_ifs at h
    simp only [Outcome.returned.injEq, true_and] at h
    subst h
    intro hc
    have := congrArg Chan.len hc
    simp at this
  refine ⟨fun hc => by simp [ActorLock.Lock, hc], fun hc => ?_, ?_⟩
  · unfold ActorLock.Lock ActorLock.getCurrentID
    rw [if_neg hc, hA]
    simp only [ne_eq, hAB, not_false_eq_true, if_true]
    rw [lockAcquire_eq, if_neg (by omega)]
  · intro b b1 requestID h hgate
    unfold ActorLock.Lock ActorLock.getCurrentID at h
    by_cases hc : b.stackDepth = b.maxStackDepth
    · simp [hc] at h
    · rw [if_neg hc] at h
      cases hcur : b.activeRequest with
      | none =>
        rw [hcur] at h
        exact absurd hgate (hacq b b1 requestID h)
      | some cur =>
        rw [hcur] at h
        cases requestID with
        | none => simp at h
        | some req =>
          by_cases hr : cur = req
          · simp [hr]
          · simp only [ne_eq, hr, not_false_eq_true, if_true] at h
            exact absurd hgate (hacq b b1 (some req) h)

theorem lock_no_borrowed_reentrancy_witness :
    (⟨some "r1", 1, 3, ⟨1, 1⟩⟩ : ActorLock).Lock (some "") =
        .blocked ⟨some "r1", 1, 3, ⟨1, 1⟩⟩ ∧
      (⟨some "r1", 3, 3, ⟨1, 1⟩⟩ : ActorLock).Lock (some "r1 ") =
        .returned (some ErrMaxStackDepthExceeded) ⟨some "r1", 3, 3, ⟨1, 1⟩⟩ :=
  ⟨(lock_no_borrowed_reentrancy ⟨some "r1", 1, 3, ⟨1, 1⟩⟩ "r1" "" rfl (by decide)
      (by decide)).2.1 (by decide),
    (lock_no_borrowed_reentrancy ⟨some "r1", 3, 3, ⟨1, 1⟩⟩ "r1" "r1 " rfl (by decide)
      (by decide)).1 rfl⟩

/-- C14: an unmatched `Unlock` is unguarded. On a lock whose depth is 0 (a fresh lock
for instance) `Unlock` returns without parking, leaves the depth at -1 and leaves the
holder and the gate unchanged. -/
theorem unlock_unmatched (a : ActorLock) (h0 : a.stackDepth = 0) :
    a.Unlock = .returned () { a with stackDepth := -1 } := by
  have hw : atomicAdd 0 (-1) = -1 := by decide
  unfold ActorLock.Unlock
  simp [h0, hw]

theorem unlock_unmatched_witness :
    (NewActorLock 2).stackDepth = 0 ∧
      (NewActorLock 2).Unlock = .returned () ⟨none, -1, 2, ⟨1, 0⟩⟩ :=
  ⟨rfl, unlock_unmatched (NewActorLock 2) rfl⟩

/-- C15: the free state differs from every identifier value, the empty string included.
On a fresh lock whose ceiling is not 0, `Lock("")` returns nil and the lock is held:
holder present with value `""`, depth 1, gate occupied. A following `Lock("")` is
reentrant: depth 2 unless the ceiling is 1, in which case it is rejected. A following
`Lock` with a non-empty identifier never succeeds in that state: it parks at the gate,
or is rejected when the ceiling is 1. -/
theorem empty_identifier_holds (m : Int) (hm : m ≠ 0) :
    (NewActorLock m).Lock (some "") = .returned none ⟨some "", 1, m, ⟨1, 1⟩⟩ ∧
      (m ≠ 1 → (⟨some "", 1, m, ⟨1, 1⟩⟩ : ActorLock).Lock (some "") =
        .returned none ⟨some "", 2, m, ⟨1, 1⟩⟩) ∧
      (m = 1 → (⟨some "", 1, m, ⟨1, 1⟩⟩ : ActorLock).Lock (some "") =
        .returned (some ErrMaxStackDepthExceeded) ⟨some "", 1, m, ⟨1, 1⟩⟩) ∧
      (∀ id : String, id ≠ "" →
        (m ≠ 1 → (⟨some "", 1, m, ⟨1, 1⟩⟩ : ActorLock).Lock (some id) =
          .blocked ⟨some "", 1, m, ⟨1, 1⟩⟩) ∧
        (m = 1 → (⟨some "", 1, m, ⟨1, 1⟩⟩ : ActorLock).Lock (some id) =
          .returned (some ErrMaxStackDepthExceeded) ⟨some "", 1, m, ⟨1, 1⟩⟩)) := by
  have h01 : atomicAdd 0 1 = 1 := by decide
  have h12 : atomicAdd 1 1 = 2 := by decide
  have hm0 : (0 : Int) ≠ m := fun h => hm h.symm
  refine ⟨?_, fun h1 => ?_, fun h1 => ?_, fun id hid => ⟨fun h1 => ?_, fun h1 => ?_⟩⟩
  · simp [NewActorLock, ActorLock.Lock, ActorLock.getCurrentID, hm0, lockAcquire_eq,
      Chan.make, h01]
  · have h1m : (1 : Int) ≠ m := fun h => h1 h.symm
    simp [ActorLock.Lock, ActorLock.getCurrentID, h1m, h12]
  · simp [ActorLock.Lock, h1]
  · have h1m : (1 : Int) ≠ m := fun h => h1 h.symm
    have hne : ¬ "" = id := fun h => hid h.symm
    simp [ActorLock.Lock, ActorLock.getCurrentID, h1m, hne, lockAcquire_eq]
  · simp [ActorLock.Lock, h1]

theorem empty_identifier_holds_witness :
    (2 : Int) ≠ 0 ∧
      (NewActorLock 2).Lock (some "") = .returned none ⟨some "", 1, 2, ⟨1, 1⟩⟩ ∧
      (⟨some "", 1, 2, ⟨1, 1⟩⟩ : ActorLock).Lock (some "") =
        .returned none ⟨some "", 2, 2, ⟨1, 1⟩⟩ ∧
      (⟨some "", 1, 2, ⟨1, 1⟩⟩ : ActorLock).Lock (some "r2") =
        .blocked ⟨some "", 1, 2, ⟨1, 1⟩⟩ :=
  ⟨by decide, (empty_identifier_holds 2 (by decide)).1,
    (empty_identifier_holds 2 (by decide)).2.1 (by decide),
    ((empty_identifier_holds 2 (by decide)).2.2.2 "r2" (by decide)).1 (by decide)⟩

/-- C16 (as stated, refuted): with ceiling 1, `"r1"` holds the lock at depth 1 after its
`Lock`, and `Lock("r2")` by another chain does not park: it returns
`ErrMaxStackDepthExceeded` at once. -/
theorem handoff_refused_at_ceiling_one :
    (NewActorLock 1).Lock (some "r1") = .returned none ⟨some "r1", 1, 1, ⟨1, 1⟩⟩ ∧
      (⟨some "r1", 1, 1, ⟨1, 1⟩⟩ : ActorLock).Lock (some "r2") =
        .returned (some ErrMaxStackDepthExceeded) ⟨some "r1", 1, 1, ⟨1, 1⟩⟩ := by
  decide

/-- C16 (amended): handoff between chains when the ceiling is above 1. While `r1` holds
the lock at depth 1 (gate occupied), `Lock(r2)` by a different chain parks without
changing the state, and so does every `Lock` of the other chains `late1` that call after
it; none of them can proceed. The `Unlock` of `r1` brings the depth to 0, clears the
holder and passes the gate slot to the call of `r2`, so the gate stays occupied and every
`Lock` of `late2` issued from then on parks behind it. The call of `r2` then completes
with nil, and `r2` is the holder at depth 1 with the gate occupied, the others still
waiting in the order of their calls. -/
theorem handoff_between_chains (m : Int) (r1 r2 : String) (late1 late2 : List (Option String))
    (hne : r2 ≠ r1) (hm : 1 < m) (hlate : ∀ id ∈ late1, id ≠ none ∧ id ≠ some r1) :
    (⟨some r1, 1, m, ⟨1, 1⟩⟩ : ActorLock).Lock (some r2) =
        .blocked ⟨some r1, 1, m, ⟨1, 1⟩⟩ ∧
      (⟨⟨some r1, 1, m, ⟨1, 1⟩⟩, 1, []⟩ : Sys).run (.lock (some r2) :: late1.map .lock) =
        some ⟨⟨some r1, 1, m, ⟨1, 1⟩⟩, 1,
          ⟨some r2, false⟩ :: late1.map fun id => ⟨id, false⟩⟩ ∧
      (⟨⟨some r1, 1, m, ⟨1, 1⟩⟩, 1,
          ⟨some r2, false⟩ :: late1.map fun id => ⟨id, false⟩⟩ : Sys).step .wake = none ∧
      (⟨⟨some r1, 1, m, ⟨1, 1⟩⟩, 1,
          ⟨some r2, false⟩ :: late1.map fun id => ⟨id, false⟩⟩ : Sys).step .unlock =
        some ⟨⟨none, 0, m, ⟨1, 1⟩⟩, 0,
          ⟨some r2, true⟩ :: late1.map fun id => ⟨id, false⟩⟩ ∧
      (⟨⟨none, 0, m, ⟨1, 1⟩⟩, 0,
          ⟨some r2, true⟩ :: late1.map fun id => ⟨id, false⟩⟩ : Sys).run
          (late2.map .lock ++ [.wake]) =
        some ⟨⟨some r2, 1, m, ⟨1, 1⟩⟩, 1,
          (late1.map fun id => ⟨id, false⟩) ++ late2.map fun id => ⟨id, false⟩⟩ ∧
      (⟨⟨some r1, 1, m, ⟨1, 1⟩⟩, 1, []⟩ : Sys).run
          ((.lock (some r2) :: late1.map .lock) ++ .unlock :: (late2.map .lock ++ [.wake])) =
        some ⟨⟨some r2, 1, m, ⟨1, 1⟩⟩, 1,
          (late1.map fun id => ⟨id, false⟩) ++ late2.map fun id => ⟨id, false⟩⟩ := by
  have h01 : atomicAdd 0 1 = 1 := by decide
  have h10 : atomicAdd 1 (-1) = 0 := by decide
  have h1m : (1 : Int) ≠ m := by omega
  have h0m : (0 : Int) ≠ m := by omega
  have hr : ¬ r1 = r2 := fun h => hne h.symm
  have hL : (⟨some r1, 1, m, ⟨1, 1⟩⟩ : ActorLock).Lock (some r2) =
      .blocked ⟨some r1, 1, m, ⟨1, 1⟩⟩ := by
    simp [ActorLock.Lock, ActorLock.getCurrentID, h1m, hr, lockAcquire_eq]
  have hL1 : ∀ id ∈ some r2 :: late1,
      (⟨some r1, 1, m, ⟨1, 1⟩⟩ : ActorLock).Lock id = .blocked ⟨some r1, 1, m, ⟨1, 1⟩⟩ := by
    intro id hid
    rcases List.mem_cons.1 hid with h | h
    · rw [h]
      exact hL
    · obtain ⟨hn, h1⟩ := hlate id h
      cases id with
      | none => exact absurd rfl hn
      | some x =>
        have hx : ¬ r1 = x := fun hc => h1 (by rw [hc])
        simp [ActorLock.Lock, ActorLock.getCurrentID, h1m, hx, lockAcquire_eq]
  have hL2 : ∀ id ∈ late2,
      (⟨none, 0, m, ⟨1, 1⟩⟩ : ActorLock).Lock id = .blocked ⟨none, 0, m, ⟨1, 1⟩⟩ := by
    intro id _
    simp [ActorLock.Lock, ActorLock.getCurrentID, h0m, lockAcquire_eq]
  have hA : (⟨⟨some r1, 1, m, ⟨1, 1⟩⟩, 1, []⟩ : Sys).run
      (.lock (some r2) :: late1.map .lock) =
      some ⟨⟨some r1, 1, m, ⟨1, 1⟩⟩, 1,
        ⟨some r2, false⟩ :: late1.map fun id => ⟨id, false⟩⟩ := by
    have := Sys.run_parking (some r2 :: late1) ⟨⟨some r1, 1, m, ⟨1, 1⟩⟩, 1, []⟩ hL1
    simpa using this
  have hW : (⟨⟨some r1, 1, m, ⟨1, 1⟩⟩, 1,
      ⟨some r2, false⟩ :: late1.map fun id => ⟨id, false⟩⟩ : Sys).step .wake = none := by
    simp [Sys.step]
  have hU : (⟨⟨some r1, 1, m, ⟨1, 1⟩⟩, 1,
      ⟨some r2, false⟩ :: late1.map fun id => ⟨id, false⟩⟩ : Sys).step .unlock =
      some ⟨⟨none, 0, m, ⟨1, 1⟩⟩, 0,
        ⟨some r2, true⟩ :: late1.map fun id => ⟨id, false⟩⟩ := by
    simp [Sys.step, ActorLock.Unlock, h10, ActorLock.clearCurrentID, Chan.recv,
      Sys.handOver, Chan.send, grantFirst]
  have hB : (⟨⟨none, 0, m, ⟨1, 1⟩⟩, 0,
      ⟨some r2, true⟩ :: late1.map fun id => ⟨id, false⟩⟩ : Sys).run
      (late2.map .lock ++ [.wake]) =
      some ⟨⟨some r2, 1, m, ⟨1, 1⟩⟩, 1,
        (late1.map fun id => ⟨id, false⟩) ++ late2.map fun id => ⟨id, false⟩⟩ := by
    rw [Sys.run_append, Sys.run_parking late2 _ hL2]
    simp [Sys.run, Sys.step, ActorLock.lockResume, ActorLock.setCurrentID, h01]
  refine ⟨hL, hA, hW, hU, hB, ?_⟩
  rw [Sys.run_append, hA]
  simp only [Option.some_bind, Sys.run, hU, hB]

theorem handoff_between_chains_witness :
    "r2" ≠ "r1" ∧ (1 : Int) < 2 ∧
      (⟨⟨some "r1", 1, 2, ⟨1, 1⟩⟩, 1, []⟩ : Sys).run
          [.lock (some "r2"), .lock (some "r3"), .unlock, .lock (some "r4"), .lock none,
            .wake] =
        some ⟨⟨some "r2", 1, 2, ⟨1, 1⟩⟩, 1,
          [⟨some "r3", false⟩, ⟨some "r4", false⟩, ⟨none, false⟩]⟩ :=
  ⟨by decide, by decide,
    (handoff_between_chains 2 "r1" "r2" [some "r3"] [some "r4", none] (by decide)
      (by decide) (by decide)).2.2.2.2.2⟩

/-- C17: absent request identifier. (1) On a free lock not at the ceiling `Lock(nil)`
returns nil and leaves depth 1 and the gate occupied with the holder still absent. (2) In
that state every `Lock`, whatever its identifier, takes the gate branch and parks while
the depth is not at the ceiling. (3) On a held lock not at the ceiling `Lock(nil)` panics
on the nil dereference, the state untouched. (4) With a non-nil identifier `Lock` never
panics. -/
theorem lock_nil_identifier (m : Int) :
    (m ≠ 0 → (NewActorLock m).Lock none = .returned none ⟨none, 1, m, ⟨1, 1⟩⟩) ∧
      (m ≠ 1 → ∀ requestID : Option String,
        (⟨none, 1, m, ⟨1, 1⟩⟩ : ActorLock).Lock requestID =
          .blocked ⟨none, 1, m, ⟨1, 1⟩⟩) ∧
      (∀ (a : ActorLock) (cur : String), a.activeRequest = some cur →
        a.stackDepth ≠ a.maxStackDepth → a.Lock none = .panicked a) ∧
      (∀ (a a1 : ActorLock) (req : String), a.Lock (some req) ≠ .panicked a1) := by
  have h01 : atomicAdd 0 1 = 1 := by decide
  refine ⟨fun h0 => ?_, fun h1 requestID => ?_, fun a cur hcur hc => ?_, fun a a1 req => ?_⟩
  · have hm0 : (0 : Int) ≠ m := fun h => h0 h.symm
    simp [NewActorLock, ActorLock.Lock, ActorLock.getCurrentID, hm0, lockAcquire_eq,
      Chan.make, h01]
  · have h1m : (1 : Int) ≠ m := fun h => h1 h.symm
    simp [ActorLock.Lock, ActorLock.getCurrentID, h1m, lockAcquire_eq]
  · unfold ActorLock.Lock ActorLock.getCurrentID
    rw [if_neg hc, hcur]
  · unfold ActorLock.Lock ActorLock.getCurrentID
    by_cases hc : a.stackDepth = a.maxStackDepth
    · simp [hc]
    · rw [if_neg hc]
      cases a.activeRequest with
      | none =>
        simp only [lockAcquire_eq]
        split_ifs <;> simp
      | some cur =>
        by_cases hr : cur = req
        · simp [hr]
        · simp only [ne_eq, hr, not_false_eq_true, if_true, lockAcquire_eq]
          split_ifs <;> simp

theorem lock_nil_identifier_witness :
    (NewActorLock 2).Lock none = .returned none ⟨none, 1, 2, ⟨1, 1⟩⟩ ∧
      (⟨none, 1, 2, ⟨1, 1⟩⟩ : ActorLock).Lock (some "r1") = .blocked ⟨none, 1, 2, ⟨1, 1⟩⟩ ∧
      (⟨some "r1", 1, 2, ⟨1, 1⟩⟩ : ActorLock).Lock none =
        .panicked ⟨some "r1", 1, 2, ⟨1, 1⟩⟩ :=
  ⟨(lock_nil_identifier 2).1 (by decide),
    (lock_nil_identifier 2).2.1 (by decide) (some "r1"),
    (lock_nil_identifier 2).2.2.1 ⟨some "r1", 1, 2, ⟨1, 1⟩⟩ "r1" rfl (by decide)⟩

end Actors

namespace ApiErrors

/-! ## The receiver of the state-store error methods -/

theorem call_name (k : Constants) (s : StateStoreError) (m : Method) :
    (s.call k m).2.name = s.name := by
  cases m <;> rfl

theorem call_skipResourceInfo (k : Constants) (s : StateStoreError) (m : Method) :
    (s.call k m).2.skipResourceInfo = (s.skipResourceInfo || m.isNotFoundOrNotConfigured) := by
  cases m <;> simp [StateStoreError.call, StateStoreError.NotFound,
    StateStoreError.NotConfigured, StateStoreError.InvalidKeyName,
    StateStoreError.TransactionsNotSupported, StateStoreError.TooManyTransactionalOps,
    StateStoreError.QueryUnsupported, StateStoreError.QueryFailed,
    Method.isNotFoundOrNotConfigured]

theorem afterCalls_name (k : Constants) (ms : List Method) :
    ∀ s : StateStoreError, (s.afterCalls k ms).name = s.name := by
  induction ms with
  | nil => intro s; rfl
  | cons m ms ih =>
    intro s
    simp only [StateStoreError.afterCalls]
    rw [ih, call_name]

theorem afterCalls_skipResourceInfo (k : Constants) (ms : List Method) :
    ∀ s : StateStoreError, (s.afterCalls k ms).skipResourceInfo =
      (s.skipResourceInfo || ms.any Method.isNotFoundOrNotConfigured) := by
  induction ms with
  | nil => intro s; simp [StateStoreError.afterCalls]
  | cons m ms ih =>
    intro s
    simp only [StateStoreError.afterCalls, List.any_cons]
    rw [ih, call_skipResourceInfo, Bool.or_assoc]

theorem call_resourceInfo (k : Constants) (s : StateStoreError) (m : Method) :
    (s.call k m).1.details.filter Detail.isResourceInfo =
      if (s.skipResourceInfo || m.isNotFoundOrNotConfigured) then []
      else [.resourceInfo "state" s.name "" ""] := by
  cases hs : s.skipResourceInfo <;> cases m <;>
    simp [hs, StateStoreError.call, StateStoreError.NotFound,
      StateStoreError.NotConfigured, StateStoreError.InvalidKeyName,
      StateStoreError.TransactionsNotSupported, StateStoreError.TooManyTransactionalOps,
      StateStoreError.QueryUnsupported, StateStoreError.QueryFailed,
      StateStoreError.build, NewBuilder, ErrorBuilder.WithResourceInfo,
      ErrorBuilder.WithErrorInfo, ErrorBuilder.WithFieldViolation,
      ErrorBuilder.WithHelpLink, ErrorBuilder.Build, Method.isNotFoundOrNotConfigured,
      List.filter, Detail.isResourceInfo]

/-- C18: sticky suppression of the resource info. `NotFound` and `NotConfigured` set
`skipResourceInfo` on the receiver, the five other methods leave the receiver as it is,
and no sequence of calls resets the flag or changes the store name. `build` appends the
resource info `("state", name)` exactly when the flag is off. Hence, on a value made by
`StateStore(name)`, the error of a call carries that resource info, and then exactly
once, if and only if neither that call nor an earlier one is `NotFound` or
`NotConfigured`; otherwise it carries none. -/
theorem skipResourceInfo_sticky (k : Constants) (s : StateStoreError) :
    (∀ appID, (s.NotFound k appID).2 = { s with skipResourceInfo := true }) ∧
      (∀ appID, (s.NotConfigured k appID).2 = { s with skipResourceInfo := true }) ∧
      (∀ key msg, (s.InvalidKeyName k key msg).2 = s) ∧
      (s.TransactionsNotSupported k).2 = s ∧
      (∀ count max, (s.TooManyTransactionalOps k count max).2 = s) ∧
      (s.QueryUnsupported k).2 = s ∧
      (∀ detail, (s.QueryFailed k detail).2 = s) ∧
      (∀ ms, (s.afterCalls k ms).name = s.name) ∧
      (∀ ms, (s.afterCalls k ms).skipResourceInfo =
        (s.skipResourceInfo || ms.any Method.isNotFoundOrNotConfigured)) ∧
      (∀ err errCode metadata, (s.build k err errCode metadata).details =
        err.details ++
          (if s.skipResourceInfo then [] else [.resourceInfo "state" s.name "" ""]) ++
          [.errorInfo (k.PrefixStateStore ++ errCode) metadata]) ∧
      (∀ ms m, (((StateStore s.name).afterCalls k ms).call k m).1.details.filter
          Detail.isResourceInfo =
        if (ms ++ [m]).any Method.isNotFoundOrNotConfigured then []
        else [.resourceInfo "state" s.name "" ""]) := by
  refine ⟨fun _ => rfl, fun _ => rfl, fun _ _ => rfl, rfl, fun _ _ => rfl, rfl,
    fun _ => rfl, fun ms => afterCalls_name k ms s,
    fun ms => afterCalls_skipResourceInfo k ms s, ?_, ?_⟩
  · intro err errCode metadata
    cases hs : s.skipResourceInfo <;>
      simp [StateStoreError.build, hs, ErrorBuilder.WithResourceInfo,
        ErrorBuilder.WithErrorInfo, ErrorBuilder.Build]
  · intro ms m
    rw [call_resourceInfo, afterCalls_skipResourceInfo, afterCalls_name]
    simp [StateStore, List.any_append]

end ApiErrors
